import Mathlib

/-!
Verification of the canonicalization core of the xmlsig repository
(src/canonical.go). The Go functions are embedded shallowly: strings stay
strings, the byte output becomes a Lean String, the mutable namespace stack
becomes explicit state passing, and the token-pulling loop becomes structural
recursion over a list of tokens in which a decoder fault is represented by a
`none` entry (the Go loop breaks on the first error from decoder.Token).
-/

/-- Qualified name of an element or attribute: xml.Name with fields Space and
Local, as used by canonical.go. -/
structure XmlName where
  Space : String
  Local : String
deriving DecidableEq

/-- Attribute: xml.Attr with a qualified name and a string value. -/
structure Attr where
  Name : XmlName
  Value : String
deriving DecidableEq

/-- Token kinds consumed by the canonicalize loop (xml.StartElement,
xml.EndElement, xml.CharData). Other token kinds fall through the Go type
switch without effect, so they are not modelled. -/
inductive Token where
  | StartElement (name : XmlName) (attr : List Attr)
  | EndElement (name : XmlName)
  | CharData (data : String)
deriving DecidableEq

/-- Go strings.HasPrefix, modelled on the character sequence of the string
(for valid UTF-8, byte-wise and character-wise comparison agree). -/
def goHasPrefix (s pre : String) : Bool :=
  pre.data.isPrefixOf s.data

/-- Go strings.HasSuffix, modelled on the character sequence of the string. -/
def goHasSuffix (s suffix : String) : Bool :=
  suffix.data.isSuffixOf s.data

/-- Go string comparison s1 < s2 (bytewise lexicographic), modelled on the
character sequences; for valid UTF-8 the byte order and the character order
agree. The character-list form is used because it evaluates inside the
kernel. -/
def goStringLt (a b : String) : Bool :=
  decide (a.data < b.data)

/-- Modelled from the spec: the repository's stack type used by canonical.go
(its source file is not under src/; only canonical.go, its caller, is).
Per spec 4.1: push appends an entry, pop removes the most recently pushed
entry and signals an error on an empty stack, top returns the most recently
pushed entry or a "no entries" signal. The head of the list is the top. -/
abbrev stack := List String

/-- Modelled from the spec (4.1): push appends an entry; 1:1 with Start. -/
def stack.Push (s : stack) (v : String) : stack := v :: s

/-- Modelled from the spec (4.1): pop removes the most recently pushed entry,
signalling an error on an empty stack. -/
def stack.Pop : stack → Except String stack
  | [] => .error "stack is empty"
  | _ :: rest => .ok rest

/-- Modelled from the spec (4.1): top returns the most recently pushed entry,
or a "no entries" signal if the stack is empty. -/
def stack.Top : stack → Except String String
  | [] => .error "stack is empty"
  | v :: _ => .ok v

/-- canonAtt.Less from canonical.go (lines 134-159): the attribute comparator
handed to sort.Sort. -/
def canonAttLess (ai aj : Attr) : Bool :=
  if ai.Name.Local = "xmlns" then true
  else if aj.Name.Local = "xmlns" then false
  else if ai.Name.Space = "xmlns" then
    (if aj.Name.Space ≠ "xmlns" then true
     else goStringLt ai.Name.Local aj.Name.Local)
  else if aj.Name.Space = "xmlns" then false
  else if ai.Name.Space ≠ aj.Name.Space then goStringLt ai.Name.Space aj.Name.Space
  else goStringLt ai.Name.Local aj.Name.Local

/-- One bubbling step of the insertion sort run by Go's sort.Sort on slices of
fewer than twelve elements: the new element x is moved left past the elements
y of the already-sorted block (given reversed, head = rightmost) while
Less(x, y) holds. -/
def insertRev (x : Attr) : List Attr → List Attr
  | [] => [x]
  | y :: ys => if canonAttLess x y then y :: insertRev x ys else x :: y :: ys

/-- sort.Sort(canonAtt(start.Attr)) from writeStartElement (line 94): Go's
sort for short slices is exactly this insertion sort; for longer slices Go
guarantees only some ordering consistent with Less, which coincides with this
one whenever Less is a strict weak order on the elements. -/
def sortAttrs (l : List Attr) : List Attr :=
  (l.foldl (fun acc x => insertRev x acc) []).reverse

/-- The ID test of canonicalize (line 46): localName == "ID" or "Id" or
strings.HasSuffix(localName, "Id"). -/
def idAttr (att : Attr) : Bool :=
  att.Name.Local == "ID" || att.Name.Local == "Id" || goHasSuffix att.Name.Local "Id"

/-- The first-element attribute scan of canonicalize (lines 44-49): each
qualifying attribute overwrites the identifier. -/
def scanId (id0 : String) (attrs : List Attr) : String :=
  attrs.foldl (fun id att => if idAttr att then att.Value else id) id0

/-- Lookup in the per-element prefix map nsmap (line 114): Go map indexing
returns the zero value "" when the key is absent. The association list is
consed on update, so the head-first search returns the latest binding, like a
Go map overwrite. -/
def lookupNs (nsmap : List (String × String)) (k : String) : String :=
  match nsmap.find? (fun p => p.1 == k) with
  | some p => p.2
  | none => ""

/-- writeNameSapce from canonical.go (lines 69-86): emits a bare xmlns
declaration when appropriate and pushes the element's namespace. Returns the
emitted text and the new stack. -/
def writeNameSapce (namespaces : stack) (start : XmlName) : String × stack :=
  let nspace := start.Space
  let out :=
    match stack.Top namespaces with
    | .error _ =>
      if goHasPrefix nspace "http" then " xmlns=\"" ++ nspace ++ "\"" else ""
    | .ok currentNs =>
      if currentNs ≠ nspace then
        (if goHasPrefix nspace "http" then " xmlns=\"" ++ nspace ++ "\"" else "")
      else ""
  (out, stack.Push namespaces nspace)

/-- The body of the attribute loop of writeStartElement (lines 99-116) for one
attribute: returns the emitted text and the updated nsmap. -/
def writeAtt (nsmap : List (String × String)) (att : Attr) :
    String × List (String × String) :=
  if att.Name.Local = "xmlns" then ("", nsmap)
  else if att.Name.Space = "xmlns" then
    (" xmlns:" ++ att.Name.Local ++ "=\"" ++ att.Value ++ "\"",
     (att.Value, att.Name.Local) :: nsmap)
  else if att.Name.Space = "" then
    (" " ++ att.Name.Local ++ "=\"" ++ att.Value ++ "\"", nsmap)
  else
    (" " ++ lookupNs nsmap att.Name.Space ++ ":" ++ att.Name.Local ++ "=\"" ++
       att.Value ++ "\"", nsmap)

/-- The attribute loop of writeStartElement (lines 98-116), threading the
per-element nsmap through the sorted attributes. -/
def writeAtts (nsmap : List (String × String)) : List Attr → String
  | [] => ""
  | att :: rest =>
    let pr := writeAtt nsmap att
    pr.1 ++ writeAtts pr.2 rest

/-- writeStartElement from canonical.go (lines 88-118): opening tag (with the
asymmetric http heuristic), attribute sort, namespace declaration step, the
attribute loop over a fresh nsmap, and the closing angle bracket. Returns the
emitted text and the new stack. -/
def writeStartElement (start : XmlName) (attrs : List Attr) (namespaces : stack) :
    String × stack :=
  let openTag :=
    if !goHasPrefix start.Space "http" then "<" ++ start.Space ++ ":" ++ start.Local
    else "<" ++ start.Local
  let sorted := sortAttrs attrs
  let ns2 := writeNameSapce namespaces start
  (openTag ++ ns2.1 ++ writeAtts [] sorted ++ ">", ns2.2)

/-- The EndElement emission of canonicalize (lines 55-59). -/
def writeEndElement (name : XmlName) : String :=
  if !goHasPrefix name.Space "http" then
    "</" ++ name.Space ++ ":" ++ name.Local ++ ">"
  else "</" ++ name.Local ++ ">"

/-- The mutable state of the canonicalize loop: the namespace stack, the
firstElem flag, the extracted identifier, and the output buffer. -/
structure CanonState where
  namespaces : stack
  firstElem : Bool
  id : String
  out : String
deriving DecidableEq

/-- One iteration of the canonicalize token loop (lines 39-63). The error
returned by Pop on an EndElement is discarded by the Go code (line 54), so an
underflowing pop leaves the stack unchanged. -/
def processToken (st : CanonState) : Token → CanonState
  | .StartElement name attrs =>
    let st1 :=
      if st.firstElem then
        { st with firstElem := false, id := scanId st.id attrs }
      else st
    let res := writeStartElement name attrs st1.namespaces
    { st1 with out := st1.out ++ res.1, namespaces := res.2 }
  | .EndElement name =>
    let ns2 :=
      match stack.Pop st.namespaces with
      | .ok rest => rest
      | .error _ => st.namespaces
    { st with namespaces := ns2, out := st.out ++ writeEndElement name }
  | .CharData d =>
    { st with out := st.out ++ d }

/-- The canonicalize token loop (lines 34-64): tokens are pulled until the
decoder reports any fault; a `none` entry stands for such a fault (including
ordinary end-of-input, which is also just the list ending). -/
def runTokens (st : CanonState) : List (Option Token) → CanonState
  | [] => st
  | none :: _ => st
  | some t :: rest => runTokens (processToken st t) rest

/-- The initial loop state of canonicalize (lines 30-33): empty stack,
firstElem true, empty identifier, empty output. -/
def initState : CanonState := ⟨[], true, "", ""⟩

/-- canonicalize from canonical.go (lines 18-67). The Go marshalling step
(encoder.Encode plus re-decoding) is a black box outside this core; its result
is the input here: either the encoding error or the token stream. The Go
return triple (out.Bytes(), id, err) becomes (Option output, id, Option err),
with none standing for Go's nil. -/
def canonicalize (encoded : Except String (List (Option Token))) :
    Option String × String × Option String :=
  match encoded with
  | .error e => (none, "", some e)
  | .ok toks =>
    let st := runTokens initState toks
    (some st.out, st.id, none)

/-- Observation helper for stating claims about the identifier: the attribute
list of the first Start token the loop reaches before any decoder fault, if
there is one. -/
def firstStartAttrs : List (Option Token) → Option (List Attr)
  | [] => none
  | none :: _ => none
  | some (.StartElement _ attrs) :: _ => some attrs
  | some (.EndElement _) :: rest => firstStartAttrs rest
  | some (.CharData _) :: rest => firstStartAttrs rest

/-- Spec-side description of the extracted identifier of one Start token: the
value of the last attribute (in original order) whose local name qualifies,
or the empty string when none qualifies. -/
def lastIdAttrValue (attrs : List Attr) : String :=
  match attrs.reverse.find? idAttr with
  | some a => a.Value
  | none => ""

/-- Spec-side transcription of the Canonical Attribute Order (spec section
"Canonical Attribute Order", rules 1-3), to be compared with the comparator
canonAttLess taken from the source: a is strictly before b iff a is the bare
xmlns declaration and b is not, or (neither is) a is a prefixed namespace
declaration and b is not, or both are and a's local name is smaller, or
neither is and (namespace, local name) of a is lexicographically smaller. -/
def specAttrOrder (a b : Attr) : Prop :=
  (a.Name.Local = "xmlns" ∧ b.Name.Local ≠ "xmlns")
  ∨ (a.Name.Local ≠ "xmlns" ∧ b.Name.Local ≠ "xmlns" ∧
      ((a.Name.Space = "xmlns" ∧ b.Name.Space ≠ "xmlns")
       ∨ (a.Name.Space = "xmlns" ∧ b.Name.Space = "xmlns" ∧
           a.Name.Local < b.Name.Local)
       ∨ (a.Name.Space ≠ "xmlns" ∧ b.Name.Space ≠ "xmlns" ∧
           (a.Name.Space < b.Name.Space ∨
            (a.Name.Space = b.Name.Space ∧ a.Name.Local < b.Name.Local)))))

/-- Rank of an attribute whose local name is not "xmlns": prefixed namespace
declarations (namespace component "xmlns") come before ordinary attributes. -/
def attrRank (a : Attr) : ℕ :=
  if a.Name.Space = "xmlns" then 1 else 2

/-- Secondary sort key: prefixed declarations compare by local name only, so
their space key is fixed to ""; ordinary attributes compare by namespace. -/
def attrSpaceKey (a : Attr) : String :=
  if a.Name.Space = "xmlns" then "" else a.Name.Space

/-- Lexicographic key describing the comparator on attributes whose local
name is not "xmlns". -/
def attrKey (a : Attr) : ℕ ×ₗ (String ×ₗ String) :=
  toLex (attrRank a, toLex (attrSpaceKey a, a.Name.Local))

/-- The Bool comparison agrees with the string order. -/
theorem goStringLt_iff (a b : String) : goStringLt a b = true ↔ a < b := by
  rw [goStringLt, decide_eq_true_eq, String.lt_iff_toList_lt]
  exact Iff.rfl

/-! ## Helper lemmas about the identifier scan -/

/-- The overwrite scan equals "value of the last qualifying attribute, or the
initial value when none qualifies". -/
theorem scanId_eq_find (attrs : List Attr) (id0 : String) :
    scanId id0 attrs =
      match attrs.reverse.find? idAttr with
      | some a => a.Value
      | none => id0 := by
  induction attrs using List.reverseRecOn with
  | nil => rfl
  | append_singleton l a ih =>
    rw [scanId, List.foldl_append] at *
    cases h : idAttr a <;>
      simp [List.reverse_append, List.find?_cons, h, scanId] at ih ⊢
    all_goals exact ih

/-- After the first Start token has been handled, the firstElem flag stays
false and the identifier is never changed. -/
theorem processToken_after_first (st : CanonState) (t : Token)
    (h : st.firstElem = false) :
    (processToken st t).firstElem = false ∧ (processToken st t).id = st.id := by
  cases t <;> simp [processToken, h]

/-- The identifier is stable over the rest of the loop once firstElem is
false. -/
theorem runTokens_id_stable (toks : List (Option Token)) :
    ∀ st : CanonState, st.firstElem = false → (runTokens st toks).id = st.id := by
  induction toks with
  | nil => intro st _; rfl
  | cons x rest ih =>
    intro st h
    cases x with
    | none => rfl
    | some t =>
      have h2 := processToken_after_first st t h
      rw [runTokens, ih _ h2.1, h2.2]

/-- The identifier produced by the loop is the scan of the first Start token's
attributes (or the initial identifier when no Start token is reached). -/
theorem runTokens_id (toks : List (Option Token)) :
    ∀ st : CanonState, st.firstElem = true →
      (runTokens st toks).id =
        match firstStartAttrs toks with
        | some attrs => scanId st.id attrs
        | none => st.id := by
  induction toks with
  | nil => intro st _; rfl
  | cons x rest ih =>
    intro st h
    cases x with
    | none => rfl
    | some t =>
      cases t with
      | StartElement name attrs =>
        rw [runTokens]
        have : (processToken st (Token.StartElement name attrs)).firstElem = false ∧
            (processToken st (Token.StartElement name attrs)).id = scanId st.id attrs := by
          simp [processToken, h]
        rw [runTokens_id_stable rest _ this.1, this.2]
        rfl
      | EndElement name =>
        rw [runTokens]
        have h1 : (processToken st (Token.EndElement name)).firstElem = true := by
          simp [processToken, h]
        have h2 : (processToken st (Token.EndElement name)).id = st.id := by
          simp [processToken]
        rw [ih _ h1, h2]
        rfl
      | CharData d =>
        rw [runTokens]
        have h1 : (processToken st (Token.CharData d)).firstElem = true := by
          simp [processToken, h]
        have h2 : (processToken st (Token.CharData d)).id = st.id := by
          simp [processToken]
        rw [ih _ h1, h2]
        rfl

/-- The loop stops at the first decoder fault exactly as it stops at the end
of the input. -/
theorem runTokens_append_fault (rest : List (Option Token)) :
    ∀ (pre : List (Option Token)) (st : CanonState),
      (∀ x ∈ pre, x ≠ none) →
      runTokens st (pre ++ none :: rest) = runTokens st pre := by
  intro pre
  induction pre with
  | nil => intro st _; rfl
  | cons x p ih =>
    intro st h
    cases x with
    | none => exact absurd rfl (h none (by simp))
    | some t =>
      simp only [List.cons_append, runTokens]
      exact ih (processToken st t) (fun y hy => h y (List.mem_cons_of_mem _ hy))

/-! ## Claim theorems (first batch) -/

/-- Claim C1: a bare default-namespace declaration is emitted by the Start
handler iff the element's namespace URI starts with "http" and the scope
stack is empty or its top differs from that URI; the URI is pushed in every
case; consequently for a root and a child sharing the same http namespace the
declaration appears exactly once, on the root. -/
theorem C1_namespace_declaration :
    (∀ (namespaces : stack) (start : XmlName),
        writeNameSapce namespaces start =
          ((if goHasPrefix start.Space "http" = true ∧
                (namespaces = [] ∨ namespaces.head? ≠ some start.Space)
            then " xmlns=\"" ++ start.Space ++ "\"" else ""),
           start.Space :: namespaces))
    ∧ canonicalize (.ok [some (.StartElement ⟨"http://ns", "Root"⟩ []),
        some (.StartElement ⟨"http://ns", "Child"⟩ []),
        some (.EndElement ⟨"http://ns", "Child"⟩),
        some (.EndElement ⟨"http://ns", "Root"⟩)]) =
      (some "<Root xmlns=\"http://ns\"><Child></Child></Root>", "", none) := by
  constructor
  · intro namespaces start
    cases namespaces with
    | nil =>
      cases h : goHasPrefix start.Space "http" <;>
        simp [writeNameSapce, stack.Top, stack.Push, h]
    | cons v rest =>
      by_cases hv : v = start.Space <;>
        cases h : goHasPrefix start.Space "http" <;>
          simp [writeNameSapce, stack.Top, stack.Push, h, hv]
  · decide

/-- Claim C3: the extracted identifier is determined by the first Start
token's attributes alone (later tokens never change it), it is the value of
the last attribute in original order whose local name is "ID", "Id" or ends
in "Id", the empty string when none qualifies; concretely, root attributes
ID="abc", Foo="x", BarId="def" give "def". -/
theorem C3_id_extraction :
    (∀ toks : List (Option Token),
        (canonicalize (.ok toks)).2.1 =
          match firstStartAttrs toks with
          | some attrs => lastIdAttrValue attrs
          | none => "")
    ∧ (canonicalize (.ok [some (.StartElement ⟨"http://r", "R"⟩
          [⟨⟨"", "ID"⟩, "abc"⟩, ⟨⟨"", "Foo"⟩, "x"⟩, ⟨⟨"", "BarId"⟩, "def"⟩]),
        some (.EndElement ⟨"http://r", "R"⟩)])).2.1 = "def" := by
  constructor
  · intro toks
    show (runTokens initState toks).id = _
    rw [runTokens_id toks initState rfl]
    cases firstStartAttrs toks with
    | none => rfl
    | some attrs =>
      show scanId "" attrs = lastIdAttrValue attrs
      rw [scanId_eq_find, lastIdAttrValue]
  · decide

/-- Claim C5: a non-nil error is returned exactly when the marshalling step
fails, and then output is nil and the identifier empty; any decoder fault
mid-stream ends the pass exactly like end-of-input, returning the bytes
emitted so far, the identifier, and a nil error. -/
theorem C5_error_model :
    (∀ e : String, canonicalize (.error e) = (none, "", some e))
    ∧ (∀ toks : List (Option Token),
        (canonicalize (.ok toks)).1 = some (runTokens initState toks).out ∧
        (canonicalize (.ok toks)).2.2 = none)
    ∧ (∀ pre rest : List (Option Token), (∀ x ∈ pre, x ≠ none) →
        canonicalize (.ok (pre ++ none :: rest)) = canonicalize (.ok pre)) := by
  refine ⟨fun e => rfl, fun toks => ⟨rfl, rfl⟩, fun pre rest h => ?_⟩
  show (_, _, _) = (_, _, _)
  rw [runTokens_append_fault rest pre initState h]

/-- Witness for C5 at a concrete stream with a fault after one token. -/
theorem C5_error_model_witness :
    (∀ x ∈ [some (Token.CharData "A")], x ≠ none)
    ∧ canonicalize (.ok ([some (Token.CharData "A")] ++
        none :: [some (Token.CharData "B")])) =
      canonicalize (.ok [some (Token.CharData "A")]) :=
  ⟨by decide,
   C5_error_model.2.2 [some (Token.CharData "A")] [some (Token.CharData "B")]
     (by decide)⟩

/-- Claim C6 records the intent that an End with no open Start be rejected;
the code instead discards the error of the underflowing Pop (line 54) and
emits output with a nil error, as this evaluation of the failing input
shows. -/
theorem C6_underflow_not_rejected :
    canonicalize (.ok [some (.EndElement ⟨"", "a"⟩)]) = (some "</:a>", "", none) := by
  decide

/-- Claim C7: an attribute with a non-empty namespace other than "xmlns" is
emitted with the prefix found in the per-element map (the empty prefix,
giving the malformed :localName="value", when the namespace is not in the
map); prefixed declarations are recorded in the map; the map starts empty for
each element, so a binding declared on the parent is not seen by the child. -/
theorem C7_attr_nsmap :
    (∀ (nsmap : List (String × String)) (att : Attr),
        att.Name.Local ≠ "xmlns" → att.Name.Space ≠ "xmlns" → att.Name.Space ≠ "" →
        writeAtt nsmap att =
          (" " ++ lookupNs nsmap att.Name.Space ++ ":" ++ att.Name.Local ++
            "=\"" ++ att.Value ++ "\"", nsmap))
    ∧ (∀ (nsmap : List (String × String)) (att : Attr),
        att.Name.Local ≠ "xmlns" → att.Name.Space = "xmlns" →
        writeAtt nsmap att =
          (" xmlns:" ++ att.Name.Local ++ "=\"" ++ att.Value ++ "\"",
           (att.Value, att.Name.Local) :: nsmap))
    ∧ canonicalize (.ok [some (.StartElement ⟨"http://e", "E"⟩
          [⟨⟨"xmlns", "p"⟩, "u"⟩, ⟨⟨"u", "x"⟩, "v"⟩]),
        some (.EndElement ⟨"http://e", "E"⟩)]) =
      (some "<E xmlns=\"http://e\" xmlns:p=\"u\" p:x=\"v\"></E>", "", none)
    ∧ canonicalize (.ok [some (.StartElement ⟨"http://p", "P"⟩ [⟨⟨"xmlns", "p"⟩, "u"⟩]),
        some (.StartElement ⟨"http://p", "C"⟩ [⟨⟨"u", "x"⟩, "v"⟩]),
        some (.EndElement ⟨"http://p", "C"⟩),
        some (.EndElement ⟨"http://p", "P"⟩)]) =
      (some "<P xmlns=\"http://p\" xmlns:p=\"u\"><C :x=\"v\"></C></P>", "", none) := by
  refine ⟨fun nsmap att h1 h2 h3 => by simp [writeAtt, h1, h2, h3],
          fun nsmap att h1 h2 => by simp [writeAtt, h1, h2],
          by decide, by decide⟩

/-- Witness for C7: the general attribute equation at a concrete attribute,
both with the binding absent (empty prefix) and present. -/
theorem C7_attr_nsmap_witness :
    ((⟨⟨"u", "x"⟩, "v"⟩ : Attr).Name.Local ≠ "xmlns"
      ∧ (⟨⟨"u", "x"⟩, "v"⟩ : Attr).Name.Space ≠ "xmlns"
      ∧ (⟨⟨"u", "x"⟩, "v"⟩ : Attr).Name.Space ≠ "")
    ∧ writeAtt [] ⟨⟨"u", "x"⟩, "v"⟩ = (" :x=\"v\"", [])
    ∧ writeAtt [("u", "p")] ⟨⟨"u", "x"⟩, "v"⟩ = (" p:x=\"v\"", [("u", "p")]) :=
  ⟨by decide,
   (C7_attr_nsmap.1 [] ⟨⟨"u", "x"⟩, "v"⟩ (by decide) (by decide) (by decide)).trans
     (by decide),
   (C7_attr_nsmap.1 [("u", "p")] ⟨⟨"u", "x"⟩, "v"⟩ (by decide) (by decide)
     (by decide)).trans (by decide)⟩

/-- Claim C8: when the element namespace does not start with "http" the
namespace string itself is rendered as a literal colon-prefix on both the
start and the end tag; when it does start with "http" the bare local name is
used. -/
theorem C8_tag_heuristic :
    (∀ name : XmlName, writeEndElement name =
        if goHasPrefix name.Space "http" = true then "</" ++ name.Local ++ ">"
        else "</" ++ name.Space ++ ":" ++ name.Local ++ ">")
    ∧ (∀ (name : XmlName) (attrs : List Attr) (namespaces : stack),
        ∃ rest, (writeStartElement name attrs namespaces).1 =
          (if goHasPrefix name.Space "http" = true then "<" ++ name.Local
           else "<" ++ name.Space ++ ":" ++ name.Local) ++ rest)
    ∧ canonicalize (.ok [some (.StartElement ⟨"urn:x", "E"⟩ []),
        some (.EndElement ⟨"urn:x", "E"⟩)]) =
      (some "<urn:x:E></urn:x:E>", "", none)
    ∧ canonicalize (.ok [some (.StartElement ⟨"http://e", "E"⟩ []),
        some (.EndElement ⟨"http://e", "E"⟩)]) =
      (some "<E xmlns=\"http://e\"></E>", "", none) := by
  refine ⟨fun name => ?_, fun name attrs namespaces => ?_, by decide, by decide⟩
  · cases h : goHasPrefix name.Space "http" <;> simp [writeEndElement, h]
  · refine ⟨(writeNameSapce namespaces name).1 ++ writeAtts [] (sortAttrs attrs) ++ ">", ?_⟩
    cases h : goHasPrefix name.Space "http" <;>
      simp [writeStartElement, h, String.append_assoc]

/-- Claim C10: the identifier scan does not exclude namespace declarations
(a declaration xmlns:fooId="u" on the root sets the identifier to "u") and it
is case-sensitive (a root attribute with local name "id" never sets it). -/
theorem C10_id_scan_details :
    canonicalize (.ok [some (.StartElement ⟨"http://r", "R"⟩ [⟨⟨"xmlns", "fooId"⟩, "u"⟩]),
        some (.EndElement ⟨"http://r", "R"⟩)]) =
      (some "<R xmlns=\"http://r\" xmlns:fooId=\"u\"></R>", "u", none)
    ∧ (∀ sp v : String,
        (canonicalize (.ok [some (.StartElement ⟨"http://r", "R"⟩ [⟨⟨sp, "id"⟩, v⟩]),
          some (.EndElement ⟨"http://r", "R"⟩)])).2.1 = "") := by
  refine ⟨by decide, fun sp v => ?_⟩
  show (runTokens initState _).id = _
  rw [runTokens_id _ initState rfl]
  show scanId "" [⟨⟨sp, "id"⟩, v⟩] = ""
  rfl


/-! ## Order-theoretic analysis of the comparator -/


theorem attrKey_lt_iff (a b : Attr) :
    attrKey a < attrKey b ↔
      (attrRank a < attrRank b ∨ (attrRank a = attrRank b ∧
        (attrSpaceKey a < attrSpaceKey b ∨
         (attrSpaceKey a = attrSpaceKey b ∧ a.Name.Local < b.Name.Local)))) := by
  rw [attrKey, attrKey, Prod.Lex.lt_iff]
  simp [Prod.Lex.lt_iff]

theorem attrKey_eq_name (a b : Attr) (h : attrKey a = attrKey b) :
    a.Name = b.Name := by
  rw [attrKey, attrKey, toLex_inj, Prod.mk.injEq, toLex_inj, Prod.mk.injEq] at h
  obtain ⟨h1, h2, h3⟩ := h
  by_cases ha : a.Name.Space = "xmlns" <;> by_cases hb : b.Name.Space = "xmlns" <;>
    simp [attrRank, attrSpaceKey, ha, hb] at h1 h2
  · cases hA : a.Name
    cases hB : b.Name
    simp_all
  · cases hA : a.Name
    cases hB : b.Name
    simp_all

theorem canonAttLess_of_xl_left (a b : Attr) (ha : a.Name.Local = "xmlns") :
    canonAttLess a b = true := by
  simp [canonAttLess, ha]

theorem canonAttLess_false_of_xl_right (a b : Attr) (ha : a.Name.Local ≠ "xmlns")
    (hb : b.Name.Local = "xmlns") : canonAttLess a b = false := by
  simp [canonAttLess, ha, hb]

theorem canonAttLess_eq_key (a b : Attr) (ha : a.Name.Local ≠ "xmlns")
    (hb : b.Name.Local ≠ "xmlns") :
    canonAttLess a b = true ↔ attrKey a < attrKey b := by
  rw [attrKey_lt_iff]
  by_cases hsa : a.Name.Space = "xmlns" <;> by_cases hsb : b.Name.Space = "xmlns" <;>
    simp [canonAttLess, goStringLt_iff, ha, hb, hsa, hsb, attrRank, attrSpaceKey]
  by_cases hss : a.Name.Space = b.Name.Space <;> simp [hss, goStringLt_iff]

theorem specAttrOrder_iff_key (a b : Attr) (ha : a.Name.Local ≠ "xmlns")
    (hb : b.Name.Local ≠ "xmlns") :
    specAttrOrder a b ↔ attrKey a < attrKey b := by
  rw [specAttrOrder, attrKey_lt_iff]
  by_cases hsa : a.Name.Space = "xmlns" <;> by_cases hsb : b.Name.Space = "xmlns" <;>
    simp [ha, hb, hsa, hsb, attrRank, attrSpaceKey]

theorem specAttrOrder_imp_lt (a b : Attr) (h : specAttrOrder a b) :
    canonAttLess a b = true := by
  rcases h with ⟨h1, _⟩ | ⟨h1, h2, h3⟩
  · exact canonAttLess_of_xl_left a b h1
  · exact (canonAttLess_eq_key a b h1 h2).mpr
      ((specAttrOrder_iff_key a b h1 h2).mp (Or.inr ⟨h1, h2, h3⟩))

theorem not_specAttrOrder_of_lt_false (a b : Attr) (h : canonAttLess a b = false) :
    ¬ specAttrOrder a b :=
  fun hs => Bool.noConfusion ((specAttrOrder_imp_lt a b hs).symm.trans h)

theorem not_specAttrOrder_rev_of_lt (x y : Attr) (h : canonAttLess x y = true) :
    ¬ specAttrOrder y x := by
  intro hs
  rcases hs with ⟨h1, h2⟩ | ⟨h1, h2, h3⟩
  · exact Bool.noConfusion ((canonAttLess_false_of_xl_right x y h2 h1).symm.trans h)
  · have hk1 : attrKey y < attrKey x :=
      (specAttrOrder_iff_key y x h1 h2).mp (Or.inr ⟨h1, h2, h3⟩)
    have hk2 : attrKey x < attrKey y := (canonAttLess_eq_key x y h2 h1).mp h
    exact lt_asymm hk2 hk1

theorem specAttrOrder_negtrans (x y z : Attr) (hxy : canonAttLess x y = false)
    (hyz : ¬ specAttrOrder y z) : ¬ specAttrOrder x z := by
  intro hxz
  rcases hxz with ⟨h1, _⟩ | ⟨h1, h2, h3⟩
  · exact Bool.noConfusion ((canonAttLess_of_xl_left x y h1).symm.trans hxy)
  · have hkxz : attrKey x < attrKey z :=
      (specAttrOrder_iff_key x z h1 h2).mp (Or.inr ⟨h1, h2, h3⟩)
    by_cases hy : y.Name.Local = "xmlns"
    · exact hyz (Or.inl ⟨hy, h2⟩)
    · have hkxy : ¬ attrKey x < attrKey y := fun hk =>
        Bool.noConfusion (((canonAttLess_eq_key x y h1 hy).mpr hk).symm.trans hxy)
      have hkyz : ¬ attrKey y < attrKey z := fun hk =>
        hyz ((specAttrOrder_iff_key y z hy h2).mpr hk)
      exact absurd hkxz (not_lt.mpr (le_trans (not_lt.mp hkyz) (not_lt.mp hkxy)))

/-! ## Properties of the insertion sort -/

theorem insertRev_perm (x : Attr) : ∀ l : List Attr, List.Perm (insertRev x l) (x :: l)
  | [] => List.Perm.refl _
  | y :: ys => by
    rw [insertRev]
    by_cases h : canonAttLess x y = true
    · rw [if_pos h]
      exact (List.Perm.cons y (insertRev_perm x ys)).trans (List.Perm.swap x y ys)
    · rw [if_neg h]

theorem sortAttrs_perm (l : List Attr) : List.Perm (sortAttrs l) l := by
  have key : ∀ m acc : List Attr,
      List.Perm (m.foldl (fun a x => insertRev x a) acc) (m ++ acc) := by
    intro m
    induction m with
    | nil => intro acc; simp
    | cons x t ih =>
      intro acc
      rw [List.foldl_cons]
      refine (ih (insertRev x acc)).trans ?_
      exact (List.Perm.append_left t (insertRev_perm x acc)).trans List.perm_middle
  exact (List.reverse_perm _).trans ((key l []).trans (by simp))

theorem insertRev_pairwise (x : Attr) : ∀ l : List Attr,
    l.Pairwise (fun a b => ¬ specAttrOrder a b) →
    (insertRev x l).Pairwise (fun a b => ¬ specAttrOrder a b) := by
  intro l
  induction l with
  | nil => intro _; simp [insertRev]
  | cons y ys ih =>
    intro h
    rw [List.pairwise_cons] at h
    obtain ⟨hy, hys⟩ := h
    rw [insertRev]
    by_cases hlt : canonAttLess x y = true
    · rw [if_pos hlt, List.pairwise_cons]
      refine ⟨fun z hz => ?_, ih hys⟩
      rcases List.mem_cons.mp ((insertRev_perm x ys).mem_iff.mp hz) with rfl | hzys
      · exact not_specAttrOrder_rev_of_lt z y hlt
      · exact hy z hzys
    · have hlt2 : canonAttLess x y = false := by
        cases h2 : canonAttLess x y
        · rfl
        · exact absurd h2 hlt
      rw [if_neg hlt, List.pairwise_cons, List.pairwise_cons]
      refine ⟨fun z hz => ?_, hy, hys⟩
      rcases List.mem_cons.mp hz with rfl | hzys
      · exact not_specAttrOrder_of_lt_false x z hlt2
      · exact specAttrOrder_negtrans x y z hlt2 (hy z hzys)

theorem sortAttrs_spec_sorted (l : List Attr) :
    (sortAttrs l).Pairwise (fun a b => ¬ specAttrOrder b a) := by
  have key : ∀ m acc : List Attr,
      acc.Pairwise (fun a b => ¬ specAttrOrder a b) →
      (m.foldl (fun a x => insertRev x a) acc).Pairwise
        (fun a b => ¬ specAttrOrder a b) := by
    intro m
    induction m with
    | nil => intro acc h; exact h
    | cons x t ih => intro acc h; exact ih _ (insertRev_pairwise x acc h)
  rw [sortAttrs, List.pairwise_reverse]
  exact key l [] (by simp)

/-! ## Uniqueness of the sorted arrangement under non-degeneracy -/

theorem countP_le_one_pairwise (p : Attr → Bool) :
    ∀ l : List Attr, l.countP p ≤ 1 →
      l.Pairwise (fun a b => ¬(p a = true ∧ p b = true)) := by
  intro l
  induction l with
  | nil => intro _; exact List.Pairwise.nil
  | cons x t ih =>
    intro h
    rw [List.countP_cons] at h
    rw [List.pairwise_cons]
    cases hx : p x with
    | true =>
      rw [hx] at h
      have h2 : t.countP p + 1 ≤ 1 := by simpa using h
      have ht : t.countP p = 0 := by omega
      have hz := List.countP_eq_zero.mp ht
      exact ⟨fun b hb hc => hz b hb hc.2, ih (by omega)⟩
    | false =>
      rw [hx] at h
      have h2 : t.countP p ≤ 1 := by simpa using h
      exact ⟨fun b hb hc => Bool.noConfusion hc.1, ih h2⟩

theorem lt_total_of_name_ne (a b : Attr) (hn : a.Name ≠ b.Name) :
    canonAttLess a b = true ∨ canonAttLess b a = true := by
  by_cases hax : a.Name.Local = "xmlns"
  · exact Or.inl (canonAttLess_of_xl_left a b hax)
  · by_cases hbx : b.Name.Local = "xmlns"
    · exact Or.inr (canonAttLess_of_xl_left b a hbx)
    · have hk : attrKey a ≠ attrKey b := fun he => hn (attrKey_eq_name a b he)
      rcases lt_or_gt_of_ne hk with h | h
      · exact Or.inl ((canonAttLess_eq_key a b hax hbx).mpr h)
      · exact Or.inr ((canonAttLess_eq_key b a hbx hax).mpr h)

theorem lt_false_of_not_spec (a b : Attr) (h1 : ¬ specAttrOrder a b)
    (hnb : ¬(a.Name.Local = "xmlns" ∧ b.Name.Local = "xmlns")) :
    canonAttLess a b = false := by
  cases h : canonAttLess a b with
  | false => rfl
  | true =>
    exfalso
    by_cases hax : a.Name.Local = "xmlns"
    · by_cases hbx : b.Name.Local = "xmlns"
      · exact hnb ⟨hax, hbx⟩
      · exact h1 (Or.inl ⟨hax, hbx⟩)
    · by_cases hbx : b.Name.Local = "xmlns"
      · exact Bool.noConfusion ((canonAttLess_false_of_xl_right a b hax hbx).symm.trans h)
      · exact h1 ((specAttrOrder_iff_key a b hax hbx).mpr
          ((canonAttLess_eq_key a b hax hbx).mp h))

theorem eq_of_perm_of_lt_sorted :
    ∀ l1 l2 : List Attr, List.Perm l1 l2 →
      l1.Pairwise (fun a b => a.Name ≠ b.Name) →
      l1.Pairwise (fun a b => canonAttLess b a = false) →
      l2.Pairwise (fun a b => canonAttLess b a = false) →
      l1 = l2 := by
  intro l1
  induction l1 with
  | nil =>
    intro l2 hp _ _ _
    exact (hp.symm.eq_nil).symm
  | cons a t1 ih =>
    intro l2 hp hdist hs1 hs2
    cases l2 with
    | nil =>
      exfalso
      have := hp.length_eq
      simp at this
    | cons b t2 =>
      by_cases hab : a = b
      · subst hab
        rw [ih t2 hp.cons_inv
          (List.pairwise_cons.mp hdist).2
          (List.pairwise_cons.mp hs1).2
          (List.pairwise_cons.mp hs2).2]
      · exfalso
        have hbt1 : b ∈ t1 := by
          have hb1 : b ∈ a :: t1 := hp.mem_iff.mpr (List.mem_cons_self b t2)
          rcases List.mem_cons.mp hb1 with h | h
          · exact absurd h.symm hab
          · exact h
        have hat2 : a ∈ t2 := by
          have ha2 : a ∈ b :: t2 := hp.mem_iff.mp (List.mem_cons_self a t1)
          rcases List.mem_cons.mp ha2 with h | h
          · exact absurd h hab
          · exact h
        have hn : a.Name ≠ b.Name := (List.pairwise_cons.mp hdist).1 b hbt1
        have h1 : canonAttLess b a = false := (List.pairwise_cons.mp hs1).1 b hbt1
        have h2 : canonAttLess a b = false := (List.pairwise_cons.mp hs2).1 a hat2
        rcases lt_total_of_name_ne a b hn with h | h
        · exact Bool.noConfusion (h.symm.trans h2)
        · exact Bool.noConfusion (h.symm.trans h1)

theorem sortAttrs_eq_of_perm (l1 l2 : List Attr) (hp : List.Perm l1 l2)
    (hdist : l1.Pairwise (fun a b => a.Name ≠ b.Name))
    (hcount : l1.countP (fun a => a.Name.Local == "xmlns") ≤ 1) :
    sortAttrs l1 = sortAttrs l2 := by
  have hnb1 : l1.Pairwise (fun a b =>
      ¬((a.Name.Local == "xmlns") = true ∧ (b.Name.Local == "xmlns") = true)) :=
    countP_le_one_pairwise (fun a => a.Name.Local == "xmlns") l1 hcount
  have hnbs1 := ((sortAttrs_perm l1).pairwise_iff (fun h hc => h ⟨hc.2, hc.1⟩)).mpr hnb1
  have hnb2 := (hp.pairwise_iff (fun h hc => h ⟨hc.2, hc.1⟩)).mp hnb1
  have hnbs2 := ((sortAttrs_perm l2).pairwise_iff (fun h hc => h ⟨hc.2, hc.1⟩)).mpr hnb2
  have hdists1 := ((sortAttrs_perm l1).pairwise_iff (fun h hc => h hc.symm)).mpr hdist
  have hlt1 : (sortAttrs l1).Pairwise (fun a b => canonAttLess b a = false) :=
    ((sortAttrs_spec_sorted l1).and hnbs1).imp (fun hc =>
      lt_false_of_not_spec _ _ hc.1
        (fun hx => hc.2 ⟨beq_iff_eq.mpr hx.2, beq_iff_eq.mpr hx.1⟩))
  have hlt2 : (sortAttrs l2).Pairwise (fun a b => canonAttLess b a = false) :=
    ((sortAttrs_spec_sorted l2).and hnbs2).imp (fun hc =>
      lt_false_of_not_spec _ _ hc.1
        (fun hx => hc.2 ⟨beq_iff_eq.mpr hx.2, beq_iff_eq.mpr hx.1⟩))
  exact eq_of_perm_of_lt_sorted (sortAttrs l1) (sortAttrs l2)
    ((sortAttrs_perm l1).trans (hp.trans (sortAttrs_perm l2).symm))
    hdists1 hlt1 hlt2

/-! ## Claim theorems (second batch) -/

/-- Claim C2: before emission the Start handler sorts the attributes: the
emitted arrangement is a permutation of the input in which no attribute is
strictly preceded (in the spec's canonical attribute order: bare xmlns first,
then prefixed declarations by local name, then ordinary attributes by
namespace then local name) by an attribute placed after it; and
writeStartElement emits exactly this sorted arrangement. -/
theorem C2_attr_sort :
    (∀ attrs : List Attr,
        List.Perm (sortAttrs attrs) attrs ∧
        (sortAttrs attrs).Pairwise (fun a b => ¬ specAttrOrder b a))
    ∧ (∀ (start : XmlName) (attrs : List Attr) (namespaces : stack),
        (writeStartElement start attrs namespaces).1 =
          (if !goHasPrefix start.Space "http" then
             "<" ++ start.Space ++ ":" ++ start.Local
           else "<" ++ start.Local) ++
          (writeNameSapce namespaces start).1 ++ writeAtts [] (sortAttrs attrs) ++ ">") :=
  ⟨fun attrs => ⟨sortAttrs_perm attrs, sortAttrs_spec_sorted attrs⟩,
   fun _ _ _ => rfl⟩

/-- Claim C9: the comparator is asymmetric whenever not both attributes have
local name "xmlns"; for two attributes that both have local name "xmlns" it
answers true in both directions, so it is not a strict order there. -/
theorem C9_comparator_strictness :
    (∀ a b : Attr, (a.Name.Local ≠ "xmlns" ∨ b.Name.Local ≠ "xmlns") →
        canonAttLess a b = true → canonAttLess b a = false)
    ∧ (∀ a b : Attr, a.Name.Local = "xmlns" → b.Name.Local = "xmlns" →
        canonAttLess a b = true ∧ canonAttLess b a = true) := by
  constructor
  · intro a b hne h
    by_cases hbx : b.Name.Local = "xmlns"
    · have hax : a.Name.Local ≠ "xmlns" := by
        rcases hne with ha | hb
        · exact ha
        · exact absurd hbx hb
      exact Bool.noConfusion ((canonAttLess_false_of_xl_right a b hax hbx).symm.trans h)
    · by_cases hax : a.Name.Local = "xmlns"
      · exact canonAttLess_false_of_xl_right b a hbx hax
      · have hk := (canonAttLess_eq_key a b hax hbx).mp h
        cases hba : canonAttLess b a with
        | false => rfl
        | true => exact absurd ((canonAttLess_eq_key b a hbx hax).mp hba) (lt_asymm hk)
  · intro a b ha hb
    exact ⟨canonAttLess_of_xl_left a b ha, canonAttLess_of_xl_left b a hb⟩

/-- Witness for C9: a concrete asymmetric pair and a concrete both-"xmlns"
pair on which the comparator answers true both ways. -/
theorem C9_comparator_strictness_witness :
    ((⟨⟨"", "p"⟩, "1"⟩ : Attr).Name.Local ≠ "xmlns" ∨
      (⟨⟨"", "q"⟩, "2"⟩ : Attr).Name.Local ≠ "xmlns")
    ∧ canonAttLess ⟨⟨"", "p"⟩, "1"⟩ ⟨⟨"", "q"⟩, "2"⟩ = true
    ∧ canonAttLess ⟨⟨"", "q"⟩, "2"⟩ ⟨⟨"", "p"⟩, "1"⟩ = false
    ∧ (canonAttLess ⟨⟨"a", "xmlns"⟩, ""⟩ ⟨⟨"b", "xmlns"⟩, ""⟩ = true ∧
       canonAttLess ⟨⟨"b", "xmlns"⟩, ""⟩ ⟨⟨"a", "xmlns"⟩, ""⟩ = true) :=
  ⟨by decide, by decide,
   C9_comparator_strictness.1 ⟨⟨"", "p"⟩, "1"⟩ ⟨⟨"", "q"⟩, "2"⟩ (by decide) (by decide),
   C9_comparator_strictness.2 ⟨⟨"a", "xmlns"⟩, ""⟩ ⟨⟨"b", "xmlns"⟩, ""⟩ (by decide)
     (by decide)⟩

/-- Counterexample to claim C4 as stated: two arrangements of the same
attribute multiset (two attributes named a with different values) produce
different canonical bytes, because the comparator sees them as equivalent and
the sort preserves their arrival order. -/
theorem C4_determinism_counterexample :
    List.Perm ([⟨⟨"", "a"⟩, "1"⟩, ⟨⟨"", "a"⟩, "2"⟩] : List Attr)
      [⟨⟨"", "a"⟩, "2"⟩, ⟨⟨"", "a"⟩, "1"⟩]
    ∧ canonicalize (.ok [some (.StartElement ⟨"http://e", "E"⟩
          [⟨⟨"", "a"⟩, "1"⟩, ⟨⟨"", "a"⟩, "2"⟩])]) ≠
      canonicalize (.ok [some (.StartElement ⟨"http://e", "E"⟩
          [⟨⟨"", "a"⟩, "2"⟩, ⟨⟨"", "a"⟩, "1"⟩])]) :=
  ⟨List.Perm.swap _ _ _, by decide⟩

/-- Claim C4 as amended: the transform is a pure function of the token stream
(two runs agree), and the emitted attribute arrangement is independent of the
initial arrangement provided the attributes carry pairwise distinct qualified
names and at most one of them has local name "xmlns". -/
theorem C4_determinism_amended :
    (∀ encoded : Except String (List (Option Token)),
        canonicalize encoded = canonicalize encoded)
    ∧ (∀ (start : XmlName) (namespaces : stack) (l1 l2 : List Attr),
        List.Perm l1 l2 →
        l1.Pairwise (fun a b => a.Name ≠ b.Name) →
        l1.countP (fun a => a.Name.Local == "xmlns") ≤ 1 →
        writeStartElement start l1 namespaces = writeStartElement start l2 namespaces) := by
  refine ⟨fun _ => rfl, fun start namespaces l1 l2 hp hdist hcount => ?_⟩
  have hs := sortAttrs_eq_of_perm l1 l2 hp hdist hcount
  simp only [writeStartElement]
  rw [hs]

/-- Witness for the amended C4 at a concrete pair of arrangements. -/
theorem C4_determinism_amended_witness :
    List.Perm ([⟨⟨"", "y"⟩, "2"⟩, ⟨⟨"", "xmlns"⟩, "n"⟩] : List Attr)
      [⟨⟨"", "xmlns"⟩, "n"⟩, ⟨⟨"", "y"⟩, "2"⟩]
    ∧ ([⟨⟨"", "y"⟩, "2"⟩, ⟨⟨"", "xmlns"⟩, "n"⟩] : List Attr).Pairwise
        (fun a b => a.Name ≠ b.Name)
    ∧ ([⟨⟨"", "y"⟩, "2"⟩, ⟨⟨"", "xmlns"⟩, "n"⟩] : List Attr).countP
        (fun a => a.Name.Local == "xmlns") ≤ 1
    ∧ writeStartElement ⟨"http://e", "E"⟩ [⟨⟨"", "y"⟩, "2"⟩, ⟨⟨"", "xmlns"⟩, "n"⟩] [] =
      writeStartElement ⟨"http://e", "E"⟩ [⟨⟨"", "xmlns"⟩, "n"⟩, ⟨⟨"", "y"⟩, "2"⟩] [] :=
  ⟨List.Perm.swap _ _ _, by decide, by decide,
   C4_determinism_amended.2 ⟨"http://e", "E"⟩ [] _ _ (List.Perm.swap _ _ _)
     (by decide) (by decide)⟩
